import Mathlib

/-!
Verification of the article-reconciliation scripts (clean_art, is_valid_art,
process_articul, extract_from_nomenclature from sort_artic_2.py; load_catalog,
find_vtrac, process_row from search_3.py; find_common_vtrac,
process_vtrac_matching, apply_vtrac_matches from end_4.py).

Python strings are modelled as lists of Unicode code points (List Nat).
Character classes from the scripts (regex whitespace, the trailing-strip class,
Python str.upper) are modelled over the ASCII and basic-Cyrillic ranges that
the data actually uses.
-/

/-- A Python string: its list of Unicode code points. -/
abbrev PyStr := List Nat

/-- Code points of a Lean string literal, for readable concrete inputs. -/
def pystr (s : String) : PyStr := s.data.map Char.toNat

/-- Python whitespace as used by str.strip and by regex \s:
space, tab, newline, vertical tab, form feed, carriage return. -/
def pySpace (c : Nat) : Bool :=
  c == 32 || c == 9 || c == 10 || c == 11 || c == 12 || c == 13

/-- Python str.upper on one code point, modelled for ASCII a-z and
Cyrillic а-я and ё (the alphabets appearing in the scripts' data). -/
def upperChar (c : Nat) : Nat :=
  if 97 ≤ c ∧ c ≤ 122 then c - 32
  else if 1072 ≤ c ∧ c ≤ 1103 then c - 32
  else if c = 1105 then 1025
  else c

/-- Python str.upper over a whole string. -/
def pyUpper (s : PyStr) : PyStr := s.map upperChar

/-- Python str.strip(): drop whitespace from both ends. -/
def pyStrip (s : PyStr) : PyStr :=
  ((s.dropWhile pySpace).reverse.dropWhile pySpace).reverse

/-- The character class of the regex used by clean_art:
a dash (45), a slash (47), or whitespace. -/
def stripClass (c : Nat) : Bool := c == 45 || c == 47 || pySpace c

/-- re.sub of that class anchored at the end: remove the maximal trailing run
of dashes, slashes and whitespace. -/
def rstripClass (s : PyStr) : PyStr := (s.reverse.dropWhile stripClass).reverse

/-- clean_art from sort_artic_2.py: strip the trailing dash/slash/whitespace
run, remove every space (code point 32), and upper-case. -/
def clean_art (s : PyStr) : PyStr :=
  ((rstripClass s).filter (fun c => c != 32)).map upperChar

/-- is_valid_art from sort_artic_2.py: length at least 4 and no space.
The Python test is a one-character substring test, i.e. membership of 32. -/
def is_valid_art (s : PyStr) : Bool :=
  decide (4 ≤ s.length) && !(s.contains 32)

/-- Adding one element to a Python set, modelled as a duplicate-free list in
insertion order. -/
def setAdd {α : Type} [DecidableEq α] (l : List α) (x : α) : List α :=
  if x ∈ l then l else l ++ [x]

example : clean_art (pystr "ab -12 / ") = pystr "AB-12" := by decide
example : is_valid_art (pystr "AB 12") = false := by decide
example : is_valid_art (pystr "AB12") = true := by decide
example : pyStrip (pystr "  ab ") = pystr "ab" := by decide

/-- Helper for str.split on a separator class: accumulates the current piece. -/
def splitOnAux (p : Nat → Bool) : PyStr → PyStr → List PyStr
  | [], acc => [acc.reverse]
  | c :: rest, acc =>
    if p c then acc.reverse :: splitOnAux p rest []
    else splitOnAux p rest (c :: acc)

/-- Python re.split on a one-character class (or str.split on one character):
split at every occurrence. -/
def splitOn (p : Nat → Bool) (s : PyStr) : List PyStr := splitOnAux p s []

/-- Helper for str.split(sep, maxsplit): the Nat argument is the remaining
split budget; once it reaches 0 the rest of the string is kept as is. -/
def splitNAux (sep : Nat) : PyStr → Nat → PyStr → List PyStr
  | [], _, acc => [acc.reverse]
  | c :: rest, n, acc =>
    if c == sep then
      match n with
      | 0 => [acc.reverse ++ c :: rest]
      | m + 1 => acc.reverse :: splitNAux sep rest m []
    else splitNAux sep rest n (c :: acc)

/-- Python str.split(sep, maxsplit) for a one-character separator. -/
def splitN (sep : Nat) (maxsplit : Nat) (s : PyStr) : List PyStr :=
  splitNAux sep s maxsplit []

/-- articul.rsplit(45, 1)[0]: everything before the last dash
(the whole string when there is no dash). -/
def beforeLastDash (s : PyStr) : PyStr :=
  match s.reverse.dropWhile (fun c => c != 45) with
  | [] => s
  | _ :: rest => rest.reverse

/-- process_articul from sort_artic_2.py.  The argument is None (pd.isna) or a
raw string; the set of variants is modelled as a duplicate-free list in
insertion order, which preserves membership exactly. -/
def process_articul (articul : Option PyStr) (original_art : PyStr) : List PyStr :=
  match articul with
  | none => []
  | some raw =>
    let a := clean_art (pyUpper (pyStrip raw))
    let v1 : List PyStr := if a ≠ original_art then setAdd [] a else []
    let vD :=
      if 45 ∈ a then
        let pbl := beforeLastDash a
        let w2 :=
          if is_valid_art pbl then
            let w1 := setAdd v1 (clean_art pbl)
            if 7 ≤ pbl.length then
              let truncated := clean_art (pbl.take (pbl.length - 2))
              if is_valid_art truncated then setAdd w1 truncated else w1
            else w1
          else v1
        match splitN 45 2 a with
        | p1 :: p2 :: rest =>
          let first_two := p1 ++ 45 :: p2
          let x1 := if is_valid_art first_two then setAdd w2 (clean_art first_two) else w2
          match rest with
          | [third_part] =>
            if is_valid_art third_part then setAdd x1 (clean_art third_part) else x1
          | _ => x1
        | _ => w2
      else v1
    let vS :=
      if 47 ∈ a then
        let r1 := clean_art (a.map (fun c => if c == 47 then 45 else c))
        let s1 := if is_valid_art r1 then setAdd vD r1 else vD
        let r2 := clean_art (a.flatMap (fun c => if c == 47 then [32, 47, 32] else [c]))
        let s2 := if is_valid_art r2 then setAdd s1 r2 else s1
        let r3 := clean_art (a.flatMap (fun c => if c == 47 then [32, 45, 32] else [c]))
        let s3 := if is_valid_art r3 then setAdd s2 r3 else s2
        (splitOn (fun c => c == 47) a).foldl
          (fun acc part =>
            let cleaned := clean_art part
            if is_valid_art cleaned then setAdd acc cleaned else acc) s3
      else vD
    vS.filter is_valid_art

example : process_articul (some (pystr "AB-100")) (pystr "AB-100") = [pystr "AB-100"] := by decide
example : process_articul none (pystr "X") = [] := by decide
example : process_articul (some (pystr "ab12/cd34")) (pystr "") =
    [pystr "AB12/CD34", pystr "AB12-CD34", pystr "AB12", pystr "CD34"] := by decide

/-- The optional period of the article-marker pattern: consume one '.' (46)
if present. -/
def dropPeriod (l : PyStr) : PyStr :=
  match l with
  | [] => []
  | c :: r => if c == 46 then r else c :: r

/-- One attempt of the article-marker pattern at the current position: the
letters of the marker case-insensitively (Cyrillic а/А 1072/1040, р/Р
1088/1056, т/Т 1090/1058), an optional period, a run of whitespace, then the
greedy capture of characters other than semicolon 59 and dollar 36, which is
the class written in the source pattern.  Returns the capture and the
remainder of the text after the whole match. -/
def tryArtMatch : PyStr → Option (PyStr × PyStr)
  | c1 :: c2 :: c3 :: rest =>
    if (c1 == 1072 || c1 == 1040) && (c2 == 1088 || c2 == 1056) &&
        (c3 == 1090 || c3 == 1058) then
      let r2 := (dropPeriod rest).dropWhile pySpace
      some (r2.takeWhile (fun c => c != 59 && c != 36),
            r2.dropWhile (fun c => c != 59 && c != 36))
    else none
  | _ => none

/-- The scan of re.findall for the article-marker pattern, written with a fuel
argument for structural recursion.  Every step consumes at least one character
of the text (a successful match consumes the three marker letters and more),
so fuel equal to the length of the text never runs out. -/
def artScan : Nat → PyStr → List PyStr
  | _, [] => []
  | 0, _ :: _ => []
  | fuel + 1, c :: rest =>
    match tryArtMatch (c :: rest) with
    | some (cap, rem) => cap :: artScan fuel rem
    | none => artScan fuel rest

/-- re.findall of the article-marker pattern: scan left to right, and after a
match resume after the matched text, so matches never overlap. -/
def art_findall (l : PyStr) : List PyStr := artScan l.length l

/-- The part of a capture before the first slash, parenthesis or space:
match.split(47)[0].split(40)[0].split(32)[0]. -/
def firstField (m : PyStr) : PyStr :=
  ((m.takeWhile (fun c => c != 47)).takeWhile (fun c => c != 40)).takeWhile
    (fun c => c != 32)

/-- The article-marker pass of extract_from_nomenclature: each capture is cut
at the first slash, parenthesis or space, cleaned, and kept when valid and
different from the original article. -/
def extract_art (nomenclature : PyStr) (original_art : PyStr) : List PyStr :=
  (art_findall (pyUpper nomenclature)).filterMap (fun m =>
    let cleaned := clean_art (firstField m)
    if is_valid_art cleaned ∧ cleaned ≠ original_art then some cleaned else none)

example : extract_art (pystr "Насос арт. AB1234; арт CD5678") (pystr "") =
    [pystr "AB1234", pystr "CD5678"] := by decide

/-- The scan of re.findall for the bracket pattern, non-greedy capture of
characters other than a closing parenthesis 41 between parentheses, with a
fuel argument for structural recursion (each step consumes at least one
character, so fuel equal to the length of the text never runs out). -/
def bracketScan : Nat → PyStr → List PyStr
  | _, [] => []
  | 0, _ :: _ => []
  | fuel + 1, c :: rest =>
    if c == 40 then
      match rest.dropWhile (fun d => d != 41) with
      | 41 :: rem => rest.takeWhile (fun d => d != 41) :: bracketScan fuel rem
      | _ => bracketScan fuel rest
    else bracketScan fuel rest

/-- re.findall of the bracket pattern over the text. -/
def bracket_findall (l : PyStr) : List PyStr := bracketScan l.length l

/-- re.search of one or more characters from the class of capital letters,
digits and dashes: the first maximal run of such characters, if any. -/
def firstRun (p : Nat → Bool) : PyStr → Option PyStr
  | [] => none
  | c :: rest => if p c then some (c :: rest.takeWhile p) else firstRun p rest

/-- The character class of capital Latin letters 65-90, digits 48-57 and
the dash 45. -/
def artClass (c : Nat) : Bool :=
  (65 ≤ c && c ≤ 90) || (48 ≤ c && c ≤ 57) || c == 45

/-- The bracket pass of extract_from_nomenclature: every parenthesized group
is split on slashes and semicolons; each piece is stripped, its first run of
letters, digits and dashes is cleaned and kept when valid and different from
the original article. -/
def extract_brackets (nomenclature : PyStr) (original_art : PyStr) : List PyStr :=
  (bracket_findall (pyUpper nomenclature)).flatMap (fun cap =>
    (splitOn (fun c => c == 47 || c == 59) cap).filterMap (fun part =>
      match firstRun artClass (pyStrip part) with
      | some r =>
        let art := clean_art r
        if is_valid_art art ∧ art ≠ original_art then some art else none
      | none => none))

/-- extract_from_nomenclature from sort_artic_2.py: None (pd.isna) yields no
articles; otherwise the text is upper-cased and the bracket pass is followed
by the article-marker pass, appending into one list. -/
def extract_from_nomenclature (nomenclature : Option PyStr) (original_art : PyStr) :
    List PyStr :=
  match nomenclature with
  | none => []
  | some t => extract_brackets t original_art ++ extract_art t original_art

example : extract_from_nomenclature (some (pystr "Насос (AB123/CD456)")) (pystr "") =
    [pystr "AB123", pystr "CD456"] := by decide

/-- A Python dict, modelled as an association list in insertion order with
unique keys: assigning to an existing key overwrites it in place, a new key
is appended at the end. -/
def dictInsert (d : List (PyStr × PyStr)) (k v : PyStr) : List (PyStr × PyStr) :=
  if d.any (fun p => p.1 == k) then
    d.map (fun p => if p.1 == k then (k, v) else p)
  else d ++ [(k, v)]

/-- Python dict.get. -/
def dictGet (d : List (PyStr × PyStr)) (k : PyStr) : Option PyStr :=
  (d.find? (fun p => p.1 == k)).map Prod.snd

/-- A catalog cell read with string dtype: NaN becomes the empty string, a
string is stripped (str(x).strip() in load_catalog). -/
def cellStr : Option PyStr → PyStr
  | none => []
  | some s => pyStrip s

/-- The guard of load_catalog on a processed cell: truthy and not the literal
string nan (code points 110, 97, 110). -/
def catOk (s : PyStr) : Bool := !(s == []) && !(s == [110, 97, 110])

/-- One iteration of the loading loop of load_catalog: the processed article
key and identifier go into the article dictionary and the processed analog
key and identifier into the analog dictionary, each only when both pass the
guard. -/
def loadStep (d : List (PyStr × PyStr) × List (PyStr × PyStr))
    (e : Option PyStr × Option PyStr × Option PyStr) :
    List (PyStr × PyStr) × List (PyStr × PyStr) :=
  (if catOk (cellStr e.1) && catOk (cellStr e.2.2) then
     dictInsert d.1 (cellStr e.1) (cellStr e.2.2)
   else d.1,
   if catOk (cellStr e.2.1) && catOk (cellStr e.2.2) then
     dictInsert d.2 (cellStr e.2.1) (cellStr e.2.2)
   else d.2)

/-- load_catalog from search_3.py over entries (article, analog article,
vtrac): builds the article dictionary and the analog dictionary, skipping
pairs whose key or identifier fails the guard. -/
def load_catalog (entries : List (Option PyStr × Option PyStr × Option PyStr)) :
    List (PyStr × PyStr) × List (PyStr × PyStr) :=
  entries.foldl loadStep ([], [])

/-- One iteration of the prefix scan of find_vtrac: a dictionary pair with a
blank key or identifier is skipped, otherwise the stripped identifier is
appended when the stripped catalog key starts with the queried article and
the identifier is non-empty and not yet collected. -/
def scanStep (a : PyStr) (acc : List PyStr) (p : PyStr × PyStr) : List PyStr :=
  if p.1 = [] ∨ p.2 = [] then acc
  else
    if a.isPrefixOf (pyStrip p.1) ∧ pyStrip p.2 ∉ acc ∧ pyStrip p.2 ≠ [] then
      acc ++ [pyStrip p.2]
    else acc

/-- find_vtrac from search_3.py: exact lookups in both dictionaries, then a
linear prefix scan of both dictionaries, appending identifiers not yet seen. -/
def find_vtrac (article : PyStr) (article_dict analog_dict : List (PyStr × PyStr)) :
    List PyStr :=
  if article = [] ∨ pyStrip article = [] then []
  else
    let a := pyStrip article
    let f1 : List PyStr :=
      match dictGet article_dict a with
      | some v => if v ≠ [] ∧ pyStrip v ≠ [] then [v] else []
      | none => []
    let f2 :=
      match dictGet analog_dict a with
      | some v => if v ≠ [] ∧ pyStrip v ≠ [] ∧ v ∉ f1 then f1 ++ [v] else f1
      | none => f1
    analog_dict.foldl (scanStep a) (article_dict.foldl (scanStep a) f2)

/-- process_row from search_3.py, over the values of the six article columns
of one row in order: for each cell that is present and non-blank, find_vtrac
runs on the stripped value and new non-empty identifiers are appended. -/
def search_process_row (row : List (Option PyStr))
    (article_dict analog_dict : List (PyStr × PyStr)) : List PyStr :=
  row.foldl
    (fun found cell =>
      match cell with
      | none => found
      | some article =>
        if pyStrip article = [] then found
        else
          (find_vtrac (pyStrip article) article_dict analog_dict).foldl
            (fun fs v => if v ≠ [] ∧ v ∉ fs then fs ++ [v] else fs) found)
    []

example :
    search_process_row [some (pystr "AB-100"), none, none, none, none, none]
      (load_catalog [(some (pystr "AB-100"), some (pystr ""), some (pystr "V1"))]).1
      (load_catalog [(some (pystr "AB-100"), some (pystr ""), some (pystr "V1"))]).2 =
    [pystr "V1"] := by decide

example :
    search_process_row [some (pystr "ab-100"), none, none, none, none, none]
      (load_catalog [(some (pystr "AB-100"), some (pystr ""), some (pystr "V1"))]).1
      (load_catalog [(some (pystr "AB-100"), some (pystr ""), some (pystr "V1"))]).2 =
    [] := by decide

/-- One insertion into the defaultdict of prefix groups: the first occurrence
of a key appends a new group at the end, a later occurrence appends the value
to its group, keeping key order. -/
def groupInsert (gs : List (PyStr × List PyStr)) (k : PyStr) (s : PyStr) :
    List (PyStr × List PyStr) :=
  match gs with
  | [] => [(k, [s])]
  | (k', l) :: rest =>
    if k' = k then (k', l ++ [s]) :: rest else (k', l) :: groupInsert rest k s

/-- The grouping loop of find_common_vtrac at one prefix length: every value
long enough is filed under its leading substring of that length. -/
def prefixGroups (n : Nat) (strs : List PyStr) : List (PyStr × List PyStr) :=
  strs.foldl (fun gs s => if n ≤ s.length then groupInsert gs (s.take n) s else gs) []

/-- Python max(groups, key=len, default=[]): the first group of maximal
length in iteration order, the empty list when there are no groups. -/
def pyMaxByLen : List (List PyStr) → List PyStr
  | [] => []
  | g :: rest => rest.foldl (fun best h => if best.length < h.length then h else best) g

/-- The loop body of find_common_vtrac over the remaining prefix lengths:
at each length, group, take the largest group, and return the leading
substring of its first member as soon as the group has more than one member. -/
def consensusScan : List Nat → List PyStr → Option PyStr
  | [], _ => none
  | n :: ns, strs =>
    let lg := pyMaxByLen ((prefixGroups n strs).map Prod.snd)
    if 1 < lg.length then some ((lg.headD []).take n) else consensusScan ns strs

/-- Python range(start, stopExcl, -1). -/
def pyRangeDown (start stopExcl : Nat) : List Nat :=
  (List.range (start - stopExcl)).map (fun i => start - i)

/-- find_common_vtrac from end_4.py: None for an empty or all-NaN input, the
single value verbatim when only one is present, otherwise the prefix scan
from length 8 down to the configured minimum length 6. -/
def find_common_vtrac (vtrac_values : List (Option PyStr)) : Option PyStr :=
  if vtrac_values.isEmpty || vtrac_values.all Option.isNone then none
  else
    let str_values := vtrac_values.filterMap id
    if str_values.length < 2 then str_values.head?
    else consensusScan (pyRangeDown 8 (6 - 1)) str_values

example : find_common_vtrac [some (pystr "AB123456"), some (pystr "AB123457")] =
    some (pystr "AB12345") := by decide
example : find_common_vtrac [none, some (pystr "X")] = some (pystr "X") := by decide
example : find_common_vtrac [none, none] = none := by decide
example : find_common_vtrac [] = none := by decide
example : find_common_vtrac
    [some (pystr "AB123456"), some (pystr "AB123457"), some (pystr "ZZ000000")] =
    some (pystr "AB12345") := by decide

/-- One spreadsheet row for the propagation pass of end_4.py: the values of
the article columns and of the vtrac columns, a missing cell being None. -/
structure Row where
  articuls : List (Option PyStr)
  vtracs : List (Option PyStr)
deriving DecidableEq, Repr

/-- Lookup in the articul-to-vtrac mapping. -/
def mapGet (m : List (PyStr × List PyStr)) (k : PyStr) : Option (List PyStr) :=
  (m.find? (fun p => p.1 == k)).map Prod.snd

/-- process_vtrac_matching from end_4.py over rows start to e: a row beyond
the table is not processed, a row with any present vtrac value is skipped,
otherwise the union of the mapped vtrac sets of its articles is collected and
the row index is reported when that union is non-empty. -/
def process_vtrac_matching (df : List Row) (mapping : List (PyStr × List PyStr))
    (start e : Nat) : List (Nat × List PyStr) :=
  (List.range' start (min e df.length - start)).filterMap (fun idx =>
    match df.get? idx with
    | none => none
    | some row =>
      if row.vtracs.any Option.isSome then none
      else
        let arts := (row.articuls.filterMap id).foldl setAdd []
        let found := arts.foldl
          (fun fs art =>
            match mapGet mapping art with
            | some vs => vs.foldl setAdd fs
            | none => fs) []
        if found.isEmpty then none else some (idx, found))

/-- Writing found identifiers into the vtrac slots of a row: the i-th value
goes to the i-th slot, slots beyond the values keep their content. -/
def writeSlots : List (Option PyStr) → List PyStr → List (Option PyStr)
  | slots, [] => slots
  | [], _ :: _ => []
  | _ :: slots, v :: vs => some v :: writeSlots slots vs

/-- apply_vtrac_matches from end_4.py: for every matched row index, the first
values, up to the five vtrac columns, are written into the vtrac slots. -/
def apply_vtrac_matches (df : List Row) (ms : List (Nat × List PyStr)) :
    List Row :=
  ms.foldl
    (fun d m =>
      match d.get? m.1 with
      | none => d
      | some row => d.set m.1 { row with vtracs := writeSlots row.vtracs (m.2.take 5) })
    df

/-- Claim-side grouping keys at one prefix length: the leading substrings of
the values that are long enough, first occurrences kept in order. -/
def claimKeys (n : Nat) (strs : List PyStr) : List PyStr :=
  (strs.filterMap (fun s => if n ≤ s.length then some (s.take n) else none)).foldl
    setAdd []

/-- Claim-side group of one key: the values long enough whose leading
substring is that key. -/
def claimGroup (n : Nat) (strs : List PyStr) (k : PyStr) : List PyStr :=
  strs.filter (fun s => decide (n ≤ s.length) && (s.take n == k))

/-- Claim-side round at one prefix length, following the claim text: group
the identifiers of sufficient length by their leading substring, take the
largest group, and if it has at least two members return its shared prefix. -/
def claimRound (n : Nat) (strs : List PyStr) : Option PyStr :=
  match claimKeys n strs with
  | [] => none
  | k0 :: krest =>
    let kmax := krest.foldl
      (fun bk k =>
        if (claimGroup n strs bk).length < (claimGroup n strs k).length then k else bk)
      k0
    if 2 ≤ (claimGroup n strs kmax).length then some kmax else none

/-- Claim-side consensus, following the claim text: prefix lengths 8, 7, 6
in descending order, returning the first round that produces a value. -/
def consensusClaim (strs : List PyStr) : Option PyStr :=
  match claimRound 8 strs with
  | some r => some r
  | none =>
    match claimRound 7 strs with
    | some r => some r
    | none => claimRound 6 strs

/-- Claim-side article-marker extraction, following the claim text for C5:
at EVERY position of the upper-cased text where the marker pattern matches,
the captured text runs to the next semicolon or to the end of the string,
and is then cut at the first slash, parenthesis or space, cleaned, and kept
when valid and different from the original. -/
def specArtClaim (nomenclature : PyStr) (original_art : PyStr) : List PyStr :=
  (pyUpper nomenclature).tails.filterMap (fun suf =>
    match suf with
    | c1 :: c2 :: c3 :: rest =>
      if (c1 == 1072 || c1 == 1040) && (c2 == 1088 || c2 == 1056) &&
          (c3 == 1090 || c3 == 1058) then
        let r2 := (dropPeriod rest).dropWhile pySpace
        let cap := r2.takeWhile (fun c => c != 59)
        let cleaned := clean_art (firstField cap)
        if is_valid_art cleaned ∧ cleaned ≠ original_art then some cleaned else none
      else none
    | _ => none)

example : specArtClaim (pystr "АРТ.AB$123 АРТ.CD456 АРТ.EF789") (pystr "") =
    [pystr "AB$123", pystr "CD456", pystr "EF789"] := by decide
example : extract_art (pystr "АРТ.AB$123 АРТ.CD456 АРТ.EF789") (pystr "") =
    [pystr "CD456"] := by decide

theorem mem_setAdd {α : Type} [DecidableEq α] (l : List α) (x y : α) :
    y ∈ setAdd l x ↔ y ∈ l ∨ y = x := by
  unfold setAdd
  split
  · constructor
    · exact fun h => Or.inl h
    · rintro (h | rfl)
      · exact h
      · assumption
  · simp

theorem foldl_setAdd_mem {α : Type} [DecidableEq α] (l : List α) (acc : List α) (x : α) :
    x ∈ l.foldl setAdd acc ↔ x ∈ acc ∨ x ∈ l := by
  induction l generalizing acc with
  | nil => simp
  | cons a l ih =>
    rw [List.foldl_cons, ih, mem_setAdd]
    simp [or_assoc]

theorem foldl_setAdd_nodup {α : Type} [DecidableEq α] (l : List α) (acc : List α)
    (h : acc.Nodup) : (l.foldl setAdd acc).Nodup := by
  induction l generalizing acc with
  | nil => exact h
  | cons a l ih =>
    rw [List.foldl_cons]
    apply ih
    unfold setAdd
    split
    · exact h
    · next hna => simp [List.nodup_append, h, hna]

theorem head_dropWhile_false {α : Type} (p : α → Bool) (l : List α) (c : α)
    (h : (l.dropWhile p).head? = some c) : p c = false := by
  induction l with
  | nil => simp [List.dropWhile] at h
  | cons a l ih =>
    rw [List.dropWhile_cons] at h
    split at h
    · exact ih h
    · next hc =>
      simp only [List.head?_cons, Option.some_inj] at h
      subst h
      simpa using hc

theorem dropWhile_eq_self_of_head {α : Type} (p : α → Bool) (l : List α)
    (h : ∀ c, l.head? = some c → p c = false) : l.dropWhile p = l := by
  cases l with
  | nil => rfl
  | cons a l => exact List.dropWhile_cons_of_neg (by simp [h a rfl])

theorem getLast?_dropWhile {α : Type} (p : α → Bool) (l : List α)
    (h : l.dropWhile p ≠ []) : (l.dropWhile p).getLast? = l.getLast? := by
  obtain ⟨t, ht⟩ := @List.dropWhile_suffix _ l p
  conv_rhs => rw [← ht]
  rw [List.getLast?_append]
  cases hgl : (l.dropWhile p).getLast? with
  | none => exact absurd (List.getLast?_eq_none_iff.mp hgl) h
  | some c => rfl

theorem pyStrip_idem (s : PyStr) : pyStrip (pyStrip s) = pyStrip s := by
  unfold pyStrip
  set A := s.dropWhile pySpace with hA
  set R := A.reverse.dropWhile pySpace with hR
  have hRhead : ∀ c, R.head? = some c → pySpace c = false :=
    fun c hc => head_dropWhile_false pySpace A.reverse c (hR ▸ hc)
  by_cases hRnil : R = []
  · simp [hRnil, List.dropWhile_nil]
  · have hyhead : ∀ c, R.reverse.head? = some c → pySpace c = false := by
      intro c hc
      have h1 : R.reverse.head? = R.getLast? := by
        cases hr : R with
        | nil => simp [hr]
        | cons a r => rw [List.head?_reverse]
      have h2 : R.getLast? = A.reverse.getLast? := getLast?_dropWhile pySpace A.reverse hRnil
      have h3 : A.reverse.getLast? = A.head? := by
        cases ha : A with
        | nil => simp [ha]
        | cons a r => rw [List.getLast?_reverse]
      have h4 : A.reverse.head? ≠ none ∨ True := Or.inr trivial
      rw [h1, h2, h3] at hc
      exact head_dropWhile_false pySpace s c (hA ▸ hc)
    rw [dropWhile_eq_self_of_head pySpace R.reverse hyhead, List.reverse_reverse,
      dropWhile_eq_self_of_head pySpace R hRhead]

theorem upperChar_idem (c : Nat) : upperChar (upperChar c) = upperChar c := by
  unfold upperChar
  split_ifs <;> omega

theorem upperChar_ne_32 (c : Nat) (h : c ≠ 32) : upperChar c ≠ 32 := by
  unfold upperChar
  split_ifs <;> omega

theorem stripClass_eq_false (c : Nat) :
    stripClass c = false ↔
      c ≠ 45 ∧ c ≠ 47 ∧ c ≠ 32 ∧ c ≠ 9 ∧ c ≠ 10 ∧ c ≠ 11 ∧ c ≠ 12 ∧ c ≠ 13 := by
  simp [stripClass, pySpace]
  tauto

theorem stripClass_upperChar (c : Nat) (h : stripClass c = false) :
    stripClass (upperChar c) = false := by
  rw [stripClass_eq_false] at h ⊢
  unfold upperChar
  split_ifs <;> omega

theorem clean_art_reverse (l : PyStr) :
    (clean_art l).reverse =
      ((l.reverse.dropWhile stripClass).filter (fun c => c != 32)).map upperChar := by
  rw [clean_art, rstripClass, ← List.map_reverse, List.filter_reverse, List.reverse_reverse]

/-- Claim C9: clean_art is idempotent. -/
theorem clean_art_idem (s : PyStr) : clean_art (clean_art s) = clean_art s := by
  have hrev : (clean_art (clean_art s)).reverse = (clean_art s).reverse := by
    rw [clean_art_reverse (clean_art s), clean_art_reverse s]
    set r := s.reverse.dropWhile stripClass with hr
    set u := (r.filter (fun c => c != 32)).map upperChar with hu
    have hstep1 : u.dropWhile stripClass = u := by
      apply dropWhile_eq_self_of_head
      intro c hc
      cases hrn : r with
      | nil => rw [hu, hrn] at hc; simp at hc
      | cons a r' =>
        have ha : stripClass a = false :=
          head_dropWhile_false stripClass s.reverse a (by rw [← hr, hrn]; rfl)
        have ha32 : (a != 32) = true := by
          rw [stripClass_eq_false] at ha
          simp [ha.2.2.1]
        have : u = upperChar a :: (r'.filter (fun c => c != 32)).map upperChar := by
          rw [hu, hrn, List.filter_cons, if_pos ha32]
          rfl
        rw [this] at hc
        simp only [List.head?_cons, Option.some_inj] at hc
        subst hc
        exact stripClass_upperChar a ha
    have hstep2 : u.filter (fun c => c != 32) = u := by
      apply List.filter_eq_self.mpr
      intro a ha
      rw [hu] at ha
      obtain ⟨c, hc, rfl⟩ := List.mem_map.mp ha
      have : (c != 32) = true := (List.mem_filter.mp hc).2
      simp only [bne_iff_ne, ne_eq] at this ⊢
      exact upperChar_ne_32 c this
    have hstep3 : u.map upperChar = u := by
      rw [hu, List.map_map]
      exact List.map_congr_left (fun a _ => upperChar_idem a)
    rw [hstep1, hstep2, hstep3]
  have := congrArg List.reverse hrev
  simpa using this

/-- Claim C4, counterexample: the code accepts a four-character string
containing a tab, so acceptance is not equivalent to containing no
whitespace character. -/
theorem is_valid_art_claim_counterexample :
    ¬ (is_valid_art (pystr "AB\t1") = true ↔
        (4 ≤ (pystr "AB\t1").length ∧ ∀ c ∈ pystr "AB\t1", pySpace c = false)) := by
  decide

/-- Claim C4 (amended): is_valid_art accepts exactly the strings of length at
least 4 that contain no space character, code point 32; other whitespace
characters are not checked. -/
theorem is_valid_art_iff (s : PyStr) :
    is_valid_art s = true ↔ (4 ≤ s.length ∧ 32 ∉ s) := by
  simp [is_valid_art]

/-- Claim C2, counterexample: with input AB-100 and original AB-100, the
hyphen rewrite of process_articul regenerates and returns the original. -/
theorem process_articul_claim_counterexample :
    pystr "AB-100" ∈ process_articul (some (pystr "AB-100")) (pystr "AB-100") := by
  decide

/-- Claim C2 (amended): process_articul guards only the direct inclusion of
the normalized input against the original, so when the normalized input
contains neither a hyphen nor a slash the returned variants never contain
the original; hyphen- and slash-derived variants may regenerate it, and the
caller process_row filters those out. -/
theorem process_articul_no_original (raw original_art : PyStr)
    (hd : 45 ∉ clean_art (pyUpper (pyStrip raw)))
    (hs : 47 ∉ clean_art (pyUpper (pyStrip raw))) :
    original_art ∉ process_articul (some raw) original_art := by
  intro hmem
  simp only [process_articul] at hmem
  rw [if_neg hs, if_neg hd] at hmem
  by_cases h : clean_art (pyUpper (pyStrip raw)) = original_art
  · rw [if_neg (by simp [h])] at hmem
    simp at hmem
  · rw [if_pos h] at hmem
    unfold setAdd at hmem
    simp at hmem
    exact h hmem.1.symm

theorem process_articul_no_original_witness :
    pystr "AB12" ∉ process_articul (some (pystr "AB12")) (pystr "AB12") :=
  process_articul_no_original (pystr "AB12") (pystr "AB12") (by decide) (by decide)

/-- Claim C3, counterexample: the resolver of search_3.py only trims the
record field and never upper-cases it, so with catalog entry AB-100 and
record field ab-100 the candidate list is empty, not V1. -/
theorem process_row_case_counterexample :
    search_process_row [some (pystr "ab-100"), none, none, none, none, none]
      (load_catalog [(some (pystr "AB-100"), some (pystr ""), some (pystr "V1"))]).1
      (load_catalog [(some (pystr "AB-100"), some (pystr ""), some (pystr "V1"))]).2 =
      [] ∧ ([] : List PyStr) ≠ [pystr "V1"] := by
  constructor
  · decide
  · decide

/-- Claim C3 (amended): the resolver trims but does not change case, so with
catalog entry (part AB-100, analog empty, identifier V1) a record whose
part-number field is already AB-100 finds the exact match and produces the
candidate list V1, while the lower-case field ab-100 produces no candidate. -/
theorem process_row_exact_match :
    search_process_row [some (pystr "AB-100"), none, none, none, none, none]
      (load_catalog [(some (pystr "AB-100"), some (pystr ""), some (pystr "V1"))]).1
      (load_catalog [(some (pystr "AB-100"), some (pystr ""), some (pystr "V1"))]).2 =
      [pystr "V1"] := by
  decide

/-- Claim C5, counterexample: the capture class of the source pattern also
stops at a dollar character, and the scan is non-overlapping so a marker
inside an earlier capture is not processed; on this input the claim reading
yields three articles where the code yields one. -/
theorem extract_art_claim_counterexample :
    specArtClaim (pystr "АРТ.AB$123 АРТ.CD456 АРТ.EF789") (pystr "") =
        [pystr "AB$123", pystr "CD456", pystr "EF789"] ∧
      extract_art (pystr "АРТ.AB$123 АРТ.CD456 АРТ.EF789") (pystr "") =
        [pystr "CD456"] ∧
      specArtClaim (pystr "АРТ.AB$123 АРТ.CD456 АРТ.EF789") (pystr "") ≠
        extract_art (pystr "АРТ.AB$123 АРТ.CD456 АРТ.EF789") (pystr "") := by
  refine ⟨by decide, by decide, by decide⟩

/-- Claim C5 (amended): over the non-overlapping left-to-right matches of the
marker pattern, whose captures stop at a semicolon, a dollar character or the
end of the string, the extractor keeps exactly the captures that, cut before
the first slash, parenthesis or space and normalized, are valid and differ
from the original value. -/
theorem extract_art_mem (nomenclature original_art x : PyStr) :
    x ∈ extract_art nomenclature original_art ↔
      ∃ m ∈ art_findall (pyUpper nomenclature),
        clean_art (firstField m) = x ∧ is_valid_art x = true ∧ x ≠ original_art := by
  simp only [extract_art, List.mem_filterMap]
  constructor
  · rintro ⟨m, hm, hf⟩
    split at hf
    · next hcond =>
      simp only [Option.some_inj] at hf
      subst hf
      exact ⟨m, hm, rfl, hcond.1, hcond.2⟩
    · exact absurd hf (by simp)
  · rintro ⟨m, hm, rfl, hvalid, hne⟩
    exact ⟨m, hm, by rw [if_pos ⟨hvalid, hne⟩]⟩

/-- Claim C6: find_common_vtrac returns None when no identifier is present
and returns the single identifier verbatim when exactly one is present. -/
theorem find_common_vtrac_few (vs : List (Option PyStr)) :
    (vs.filterMap id = [] → find_common_vtrac vs = none) ∧
    (∀ s, vs.filterMap id = [s] → find_common_vtrac vs = some s) := by
  have hall : vs.all Option.isNone = true ↔ vs.filterMap id = [] := by
    rw [List.all_eq_true, List.filterMap_eq_nil_iff]
    constructor
    · intro h a ha
      have := h a ha
      cases a with
      | none => rfl
      | some x => simp at this
    · intro h a ha
      have := h a ha
      cases a with
      | none => rfl
      | some x => simp at this
  constructor
  · intro h
    unfold find_common_vtrac
    rw [if_pos (by simp [hall.mpr h])]
  · intro s h
    unfold find_common_vtrac
    rw [if_neg, h]
    · simp
    · intro hcond
      rw [Bool.or_eq_true] at hcond
      rcases hcond with hc | hc
      · rw [List.isEmpty_iff] at hc
        rw [hc] at h
        simp at h
      · rw [hall] at hc
        rw [hc] at h
        exact absurd h (by simp)

theorem find_common_vtrac_few_witness :
    find_common_vtrac [none, none] = none ∧
      find_common_vtrac [none, some (pystr "X")] = some (pystr "X") :=
  ⟨(find_common_vtrac_few [none, none]).1 (by decide),
   (find_common_vtrac_few [none, some (pystr "X")]).2 (pystr "X") (by decide)⟩

theorem mem_dictInsert {d : List (PyStr × PyStr)} {k v : PyStr} {q : PyStr × PyStr}
    (h : q ∈ dictInsert d k v) : q ∈ d ∨ q = (k, v) := by
  unfold dictInsert at h
  split at h
  · obtain ⟨p, hp, hq⟩ := List.mem_map.mp h
    split at hq
    · right
      exact hq.symm
    · left
      exact hq ▸ hp
  · rcases List.mem_append.mp h with h | h
    · left
      exact h
    · right
      simpa using h

theorem catOk_iff (s : PyStr) : catOk s = true ↔ (s ≠ [] ∧ s ≠ [110, 97, 110]) := by
  simp [catOk]

theorem pyStrip_cellStr (c : Option PyStr) : pyStrip (cellStr c) = cellStr c := by
  cases c with
  | none => rfl
  | some s => exact pyStrip_idem s

theorem load_catalog_good (entries : List (Option PyStr × Option PyStr × Option PyStr)) :
    ∀ q : PyStr × PyStr,
      (q ∈ (load_catalog entries).1 ∨ q ∈ (load_catalog entries).2) →
      catOk q.1 = true ∧ pyStrip q.1 = q.1 ∧ catOk q.2 = true ∧ pyStrip q.2 = q.2 := by
  suffices h : ∀ (es : List (Option PyStr × Option PyStr × Option PyStr))
      (d : List (PyStr × PyStr) × List (PyStr × PyStr)),
      (∀ q : PyStr × PyStr, (q ∈ d.1 ∨ q ∈ d.2) →
        catOk q.1 = true ∧ pyStrip q.1 = q.1 ∧ catOk q.2 = true ∧ pyStrip q.2 = q.2) →
      ∀ q : PyStr × PyStr, (q ∈ (es.foldl loadStep d).1 ∨ q ∈ (es.foldl loadStep d).2) →
        catOk q.1 = true ∧ pyStrip q.1 = q.1 ∧ catOk q.2 = true ∧ pyStrip q.2 = q.2 by
    exact fun q hq => h entries ([], []) (by simp) q hq
  intro es
  induction es with
  | nil => exact fun d hd q hq => hd q hq
  | cons e es ih =>
    intro d hd q hq
    rw [List.foldl_cons] at hq
    refine ih (loadStep d e) ?_ q hq
    intro q hq'
    have hstep : ∀ (dd : List (PyStr × PyStr)) (key vl : PyStr),
        catOk key = true → catOk vl = true → pyStrip key = key → pyStrip vl = vl →
        (∀ r : PyStr × PyStr, r ∈ dd →
          catOk r.1 = true ∧ pyStrip r.1 = r.1 ∧ catOk r.2 = true ∧ pyStrip r.2 = r.2) →
        ∀ r : PyStr × PyStr, r ∈ dictInsert dd key vl →
          catOk r.1 = true ∧ pyStrip r.1 = r.1 ∧ catOk r.2 = true ∧ pyStrip r.2 = r.2 := by
      intro dd key vl hk hv hks hvs hdd r hr
      rcases mem_dictInsert hr with hr | rfl
      · exact hdd r hr
      · exact ⟨hk, hks, hv, hvs⟩
    rcases hq' with h1 | h2
    · unfold loadStep at h1
      simp only at h1
      split at h1
      · next hg =>
        rw [Bool.and_eq_true] at hg
        exact hstep d.1 (cellStr e.1) (cellStr e.2.2) hg.1 hg.2
          (pyStrip_cellStr e.1) (pyStrip_cellStr e.2.2)
          (fun r hr => hd r (Or.inl hr)) q h1
      · exact hd q (Or.inl h1)
    · unfold loadStep at h2
      simp only at h2
      split at h2
      · next hg =>
        rw [Bool.and_eq_true] at hg
        exact hstep d.2 (cellStr e.2.1) (cellStr e.2.2) hg.1 hg.2
          (pyStrip_cellStr e.2.1) (pyStrip_cellStr e.2.2)
          (fun r hr => hd r (Or.inr hr)) q h2
      · exact hd q (Or.inr h2)

theorem dictGet_dictInsert (d : List (PyStr × PyStr)) (k v : PyStr) :
    dictGet (dictInsert d k v) k = some v := by
  induction d with
  | nil => simp [dictInsert, dictGet]
  | cons q rest ih =>
    by_cases hq : q.1 = k
    · unfold dictInsert
      rw [if_pos (by simp [List.any_cons, hq]), List.map_cons, if_pos (by simp [hq])]
      unfold dictGet
      rw [List.find?_cons_of_pos _ (by simp)]
      rfl
    · unfold dictInsert
      by_cases hr : rest.any (fun p => p.1 == k) = true
      · rw [if_pos (by simp [List.any_cons, hr]), List.map_cons,
          if_neg (by simpa using hq)]
        unfold dictGet
        rw [List.find?_cons_of_neg _ (by simpa using hq)]
        have hrw : dictInsert rest k v =
            rest.map (fun p => if p.1 == k then (k, v) else p) := by
          unfold dictInsert
          rw [if_pos hr]
        have hres := ih
        rw [hrw] at hres
        unfold dictGet at hres
        exact hres
      · rw [if_neg (by simp [List.any_cons, hq, hr])]
        unfold dictGet
        rw [List.find?_append]
        have hnone : (q :: rest).find? (fun p => p.1 == k) = none := by
          rw [List.find?_eq_none]
          intro x hx hxk
          rcases List.mem_cons.mp hx with rfl | hx'
          · exact hq (by simpa using hxk)
          · exact hr (List.any_eq_true.mpr ⟨x, hx', hxk⟩)
        rw [hnone, List.find?_cons_of_pos _ (by simp)]
        rfl

/-- Claim C7: every key and identifier stored by load_catalog is a trimmed,
non-empty string different from nan, and appending an entry with a passing
key and identifier makes that key map to that identifier (last write wins). -/
theorem load_catalog_invariant (entries : List (Option PyStr × Option PyStr × Option PyStr)) :
    (∀ k v : PyStr,
      ((k, v) ∈ (load_catalog entries).1 ∨ (k, v) ∈ (load_catalog entries).2) →
      k ≠ [] ∧ k ≠ pystr "nan" ∧ pyStrip k = k ∧
      v ≠ [] ∧ v ≠ pystr "nan" ∧ pyStrip v = v) ∧
    (∀ art analog vtrac : Option PyStr,
      catOk (cellStr art) = true → catOk (cellStr vtrac) = true →
      dictGet (load_catalog (entries ++ [(art, analog, vtrac)])).1 (cellStr art) =
        some (cellStr vtrac)) := by
  have hnan : pystr "nan" = [110, 97, 110] := by decide
  constructor
  · intro k v hmem
    obtain ⟨hk, hks, hv, hvs⟩ := load_catalog_good entries (k, v) hmem
    rw [catOk_iff] at hk hv
    exact ⟨hk.1, hnan ▸ hk.2, hks, hv.1, hnan ▸ hv.2, hvs⟩
  · intro art analog vtrac h1 h2
    unfold load_catalog
    rw [List.foldl_append, List.foldl_cons, List.foldl_nil]
    show dictGet (loadStep (load_catalog entries) (art, analog, vtrac)).1 (cellStr art) = _
    unfold loadStep
    simp only
    rw [if_pos (by simp [h1, h2])]
    exact dictGet_dictInsert _ _ _

theorem load_catalog_invariant_witness :
    (pystr "K1" ≠ [] ∧ pystr "K1" ≠ pystr "nan" ∧ pyStrip (pystr "K1") = pystr "K1" ∧
      pystr "V1" ≠ [] ∧ pystr "V1" ≠ pystr "nan" ∧ pyStrip (pystr "V1") = pystr "V1") ∧
    dictGet (load_catalog ([(some (pystr "K1 "), none, some (pystr "V1"))] ++
        [(some (pystr " K1"), none, some (pystr "V2"))])).1
      (cellStr (some (pystr " K1"))) = some (cellStr (some (pystr "V2"))) :=
  ⟨(load_catalog_invariant [(some (pystr "K1 "), none, some (pystr "V1"))]).1
      (pystr "K1") (pystr "V1") (by decide),
   (load_catalog_invariant [(some (pystr "K1 "), none, some (pystr "V1"))]).2
      (some (pystr " K1")) none (some (pystr "V2")) (by decide) (by decide)⟩

theorem mem_scanStep {a : PyStr} {acc : List PyStr} {p : PyStr × PyStr} {x : PyStr}
    (h : x ∈ acc) : x ∈ scanStep a acc p := by
  unfold scanStep
  split
  · exact h
  · split
    · exact List.mem_append_left _ h
    · exact h

theorem mem_foldl_scanStep {d : List (PyStr × PyStr)} {a : PyStr} {acc : List PyStr}
    {x : PyStr} (h : x ∈ acc) : x ∈ d.foldl (scanStep a) acc := by
  induction d generalizing acc with
  | nil => exact h
  | cons q rest ih => exact ih (mem_scanStep h)

theorem mem_foldl_scanStep_of_mem {d : List (PyStr × PyStr)} {a k v : PyStr}
    (acc : List PyStr) (hmem : (k, v) ∈ d) (hkne : k ≠ []) (hvne : v ≠ [])
    (hk : pyStrip k = k) (hv : pyStrip v = v) (hpre : a.isPrefixOf k = true) :
    v ∈ d.foldl (scanStep a) acc := by
  induction d generalizing acc with
  | nil => simp at hmem
  | cons q rest ih =>
    rcases List.mem_cons.mp hmem with hh | hmem'
    · rw [List.foldl_cons]
      apply mem_foldl_scanStep
      rw [← hh]
      unfold scanStep
      simp only
      rw [if_neg (by simp [hkne, hvne]), hk, hv]
      by_cases hin : v ∈ acc
      · split
        · exact List.mem_append_left _ hin
        · exact hin
      · rw [if_pos ⟨hpre, hin, hvne⟩]
        exact List.mem_append_right _ (by simp)
    · rw [List.foldl_cons]
      exact ih _ hmem'

/-- Claim C8, counterexample: the empty string is a prefix of every catalog
key, yet find_vtrac on a blank queried key returns the empty list, so the
claim fails for blank queries. -/
theorem find_vtrac_blank_counterexample :
    ([] : PyStr).isPrefixOf (pystr "AB-100-X") = true ∧
    (pystr "AB-100-X", pystr "V2") ∈
      (load_catalog [(some (pystr "AB-100-X"), none, some (pystr "V2"))]).1 ∧
    pystr "V2" ∉
      find_vtrac []
        (load_catalog [(some (pystr "AB-100-X"), none, some (pystr "V2"))]).1
        (load_catalog [(some (pystr "AB-100-X"), none, some (pystr "V2"))]).2 := by
  refine ⟨by decide, by decide, by decide⟩

/-- Claim C8 (amended): for every queried key that is non-blank after
trimming, every entry of the catalog dictionaries whose key starts with the
trimmed queried key contributes its identifier to the result of find_vtrac;
in particular, with catalog entry (part AB-100-X, identifier V2), querying
AB-100 yields a candidate list containing V2. -/
theorem find_vtrac_contains_matches
    (entries : List (Option PyStr × Option PyStr × Option PyStr))
    (article k v : PyStr) (ha : pyStrip article ≠ [])
    (hmem : (k, v) ∈ (load_catalog entries).1 ∨ (k, v) ∈ (load_catalog entries).2)
    (hpre : (pyStrip article).isPrefixOf k = true) :
    v ∈ find_vtrac article (load_catalog entries).1 (load_catalog entries).2 ∧
    pystr "V2" ∈
      find_vtrac (pystr "AB-100")
        (load_catalog [(some (pystr "AB-100-X"), none, some (pystr "V2"))]).1
        (load_catalog [(some (pystr "AB-100-X"), none, some (pystr "V2"))]).2 := by
  refine ⟨?_, by decide⟩
  obtain ⟨hk, hks, hv, hvs⟩ := load_catalog_good entries (k, v) hmem
  rw [catOk_iff] at hk hv
  unfold find_vtrac
  rw [if_neg]
  · simp only
    rcases hmem with h1 | h2
    · exact mem_foldl_scanStep
        (mem_foldl_scanStep_of_mem _ h1 hk.1 hv.1 hks hvs hpre)
    · exact mem_foldl_scanStep_of_mem _ h2 hk.1 hv.1 hks hvs hpre
  · rintro (hblank | hblank)
    · exact ha (by rw [hblank]; rfl)
    · exact ha hblank

theorem find_vtrac_contains_matches_witness :
    pystr "V2" ∈
      find_vtrac (pystr "AB-100")
        (load_catalog [(some (pystr "AB-100-X"), none, some (pystr "V2"))]).1
        (load_catalog [(some (pystr "AB-100-X"), none, some (pystr "V2"))]).2 ∧
    pystr "V2" ∈
      find_vtrac (pystr "AB-100")
        (load_catalog [(some (pystr "AB-100-X"), none, some (pystr "V2"))]).1
        (load_catalog [(some (pystr "AB-100-X"), none, some (pystr "V2"))]).2 :=
  find_vtrac_contains_matches
    [(some (pystr "AB-100-X"), none, some (pystr "V2"))]
    (pystr "AB-100") (pystr "AB-100-X") (pystr "V2")
    (by decide) (by decide) (by decide)

theorem process_vtrac_matching_skips {df : List Row} {mapping : List (PyStr × List PyStr)}
    {start e : Nat} {m : Nat × List PyStr}
    (hm : m ∈ process_vtrac_matching df mapping start e) :
    ∀ r : Row, df.get? m.1 = some r → r.vtracs.any Option.isSome = false := by
  intro r hr
  unfold process_vtrac_matching at hm
  obtain ⟨j, hj, hf⟩ := List.mem_filterMap.mp hm
  rcases hget : df.get? j with _ | row
  · rw [hget] at hf
    simp at hf
  · rw [hget] at hf
    simp only at hf
    split at hf
    · simp at hf
    · next hskip =>
      split at hf
      · simp at hf
      · simp only [Option.some_inj] at hf
        have hj1 : m.1 = j := by rw [← hf]
        rw [hj1, hget] at hr
        cases hr
        exact Bool.not_eq_true _ ▸ eq_false_of_ne_true hskip

theorem apply_vtrac_matches_get {df : List Row} {ms : List (Nat × List PyStr)}
    {idx : Nat} (h : ∀ m ∈ ms, m.1 ≠ idx) :
    (apply_vtrac_matches df ms).get? idx = df.get? idx := by
  induction ms generalizing df with
  | nil => rfl
  | cons m rest ih =>
    unfold apply_vtrac_matches
    rw [List.foldl_cons]
    have hstep : ∀ d : List Row,
        ((match d.get? m.1 with
          | none => d
          | some row => d.set m.1
              { row with vtracs := writeSlots row.vtracs (m.2.take 5) }) : List Row).get? idx =
          d.get? idx := by
      intro d
      rcases d.get? m.1 with _ | row
      · rfl
      · simp only
        rw [List.get?_eq_getElem?, List.get?_eq_getElem?,
          List.getElem?_set_ne (h m (by simp))]
    have := @ih (match df.get? m.1 with
      | none => df
      | some row => df.set m.1 { row with vtracs := writeSlots row.vtracs (m.2.take 5) })
      (fun q hq => h q (List.mem_cons_of_mem _ hq))
    unfold apply_vtrac_matches at this
    rw [this, hstep]

/-- Claim C10: a row that already has a present value in one of its vtrac
slots is skipped by process_vtrac_matching and therefore left untouched by
apply_vtrac_matches. -/
theorem task1_preserves_filled_rows (df : List Row) (mapping : List (PyStr × List PyStr))
    (start e idx : Nat) (row : Row) (hrow : df.get? idx = some row)
    (hv : row.vtracs.any Option.isSome = true) :
    (apply_vtrac_matches df (process_vtrac_matching df mapping start e)).get? idx =
      some row := by
  rw [apply_vtrac_matches_get, hrow]
  intro m hm heq
  have := process_vtrac_matching_skips hm row (by rw [heq, hrow])
  rw [this] at hv
  exact Bool.false_ne_true hv

theorem task1_preserves_filled_rows_witness :
    (apply_vtrac_matches
        [Row.mk [some (pystr "A111")] [some (pystr "V0"), none],
         Row.mk [some (pystr "A111")] [none, none]]
        (process_vtrac_matching
          [Row.mk [some (pystr "A111")] [some (pystr "V0"), none],
           Row.mk [some (pystr "A111")] [none, none]]
          [(pystr "A111", [pystr "V9"])] 0 2)).get? 0 =
      some (Row.mk [some (pystr "A111")] [some (pystr "V0"), none]) :=
  task1_preserves_filled_rows
    [Row.mk [some (pystr "A111")] [some (pystr "V0"), none],
     Row.mk [some (pystr "A111")] [none, none]]
    [(pystr "A111", [pystr "V9"])] 0 2 0
    (Row.mk [some (pystr "A111")] [some (pystr "V0"), none]) (by decide) (by decide)

theorem claimKeys_nodup (n : Nat) (strs : List PyStr) : (claimKeys n strs).Nodup :=
  foldl_setAdd_nodup _ [] (by simp)

theorem take_mem_claimKeys (n : Nat) (p : List PyStr) (s : PyStr)
    (h1 : s ∈ p) (h2 : n ≤ s.length) : s.take n ∈ claimKeys n p := by
  unfold claimKeys
  rw [foldl_setAdd_mem]
  exact Or.inr (List.mem_filterMap.mpr ⟨s, h1, by rw [if_pos h2]⟩)

theorem claimGroup_eq_nil_of_not_mem (n : Nat) (p : List PyStr) (k : PyStr)
    (h : k ∉ claimKeys n p) : claimGroup n p k = [] := by
  unfold claimGroup
  rw [List.filter_eq_nil_iff]
  intro x hx hpred
  rw [Bool.and_eq_true, decide_eq_true_iff, beq_iff_eq] at hpred
  exact h (hpred.2 ▸ take_mem_claimKeys n p x hx hpred.1)

theorem claimKeys_append_le (n : Nat) (p : List PyStr) (s : PyStr) (h : n ≤ s.length) :
    claimKeys n (p ++ [s]) = setAdd (claimKeys n p) (s.take n) := by
  unfold claimKeys
  rw [List.filterMap_append, List.foldl_append]
  simp [if_pos h]

theorem claimKeys_append_lt (n : Nat) (p : List PyStr) (s : PyStr) (h : ¬ n ≤ s.length) :
    claimKeys n (p ++ [s]) = claimKeys n p := by
  unfold claimKeys
  rw [List.filterMap_append, List.foldl_append]
  simp [if_neg h]

theorem claimGroup_append (n : Nat) (p : List PyStr) (s : PyStr) (k : PyStr) :
    claimGroup n (p ++ [s]) k =
      claimGroup n p k ++
        (if (decide (n ≤ s.length) && (s.take n == k)) = true then [s] else []) := by
  unfold claimGroup
  rw [List.filter_append]
  congr 1
  by_cases hc : (decide (n ≤ s.length) && (s.take n == k)) = true
  · rw [List.filter_cons, if_pos hc, if_pos hc]
    rfl
  · rw [List.filter_cons, if_neg hc, if_neg hc]
    rfl

theorem groupInsert_map_not_mem (keys : List PyStr) (g : PyStr → List PyStr)
    (k : PyStr) (s : PyStr) (h : k ∉ keys) :
    groupInsert (keys.map (fun q => (q, g q))) k s =
      keys.map (fun q => (q, g q)) ++ [(k, [s])] := by
  induction keys with
  | nil => rfl
  | cons a keys ih =>
    rw [List.map_cons]
    unfold groupInsert
    rw [if_neg (fun hak : a = k => h (by rw [← hak]; exact List.mem_cons_self a keys))]
    rw [ih (fun hk => h (List.mem_cons_of_mem a hk))]
    rfl

theorem groupInsert_map_mem (keys : List PyStr) (g : PyStr → List PyStr)
    (k : PyStr) (s : PyStr) (hnd : keys.Nodup) (hk : k ∈ keys) :
    groupInsert (keys.map (fun q => (q, g q))) k s =
      keys.map (fun q => (q, if q = k then g q ++ [s] else g q)) := by
  induction keys with
  | nil => simp at hk
  | cons a keys ih =>
    rw [List.map_cons, List.map_cons]
    unfold groupInsert
    by_cases ha : a = k
    · have hnotin : k ∉ keys := ha ▸ (List.nodup_cons.mp hnd).1
      rw [if_pos ha, if_pos ha]
      congr 1
      apply List.map_congr_left
      intro q hq
      rw [if_neg (fun hqk : q = k => hnotin (hqk ▸ hq))]
    · rw [if_neg ha, if_neg ha]
      congr 1
      exact ih (List.nodup_cons.mp hnd).2
        ((List.mem_cons.mp hk).resolve_left (fun hka => ha hka.symm))

theorem prefixGroups_foldl_eq (n : Nat) (strs : List PyStr) : ∀ p : List PyStr,
    strs.foldl (fun gs s => if n ≤ s.length then groupInsert gs (s.take n) s else gs)
      ((claimKeys n p).map (fun q => (q, claimGroup n p q))) =
    (claimKeys n (p ++ strs)).map (fun q => (q, claimGroup n (p ++ strs) q)) := by
  induction strs with
  | nil => intro p; rw [List.append_nil]; rfl
  | cons s rest ih =>
    intro p
    rw [List.foldl_cons]
    have hassoc : p ++ s :: rest = (p ++ [s]) ++ rest := by simp
    rw [hassoc, ← ih (p ++ [s])]
    congr 1
    by_cases hns : n ≤ s.length
    · rw [if_pos hns]
      by_cases hmem : s.take n ∈ claimKeys n p
      · rw [groupInsert_map_mem _ _ _ _ (claimKeys_nodup n p) hmem]
        rw [claimKeys_append_le n p s hns]
        unfold setAdd
        rw [if_pos hmem]
        apply List.map_congr_left
        intro q hq
        rw [claimGroup_append]
        by_cases hqk : q = s.take n
        · rw [if_pos hqk, if_pos (by simp [hns, hqk.symm])]
        · rw [if_neg hqk,
            if_neg (by simp [hns]; exact fun htake => hqk htake.symm), List.append_nil]
      · rw [groupInsert_map_not_mem _ _ _ _ hmem]
        rw [claimKeys_append_le n p s hns]
        unfold setAdd
        rw [if_neg hmem, List.map_append]
        congr 1
        · apply List.map_congr_left
          intro q hq
          rw [claimGroup_append,
            if_neg (by simp [hns]; exact fun htake => hmem (htake ▸ hq)), List.append_nil]
        · rw [List.map_singleton]
          congr 1
          rw [claimGroup_append, claimGroup_eq_nil_of_not_mem n p _ hmem,
            if_pos (by simp [hns]), List.nil_append]
    · rw [if_neg hns]
      rw [claimKeys_append_lt n p s hns]
      apply List.map_congr_left
      intro q hq
      rw [claimGroup_append, if_neg (by simp [hns]), List.append_nil]

theorem prefixGroups_eq (n : Nat) (strs : List PyStr) :
    prefixGroups n strs = (claimKeys n strs).map (fun q => (q, claimGroup n strs q)) := by
  have h := prefixGroups_foldl_eq n strs []
  simpa [prefixGroups] using h

theorem foldl_max_map (g : PyStr → List PyStr) (ks : List PyStr) : ∀ b : PyStr,
    (ks.map g).foldl (fun best h => if best.length < h.length then h else best) (g b) =
      g (ks.foldl (fun bk k => if (g bk).length < (g k).length then k else bk) b) := by
  induction ks with
  | nil => intro b; rfl
  | cons k ks ih =>
    intro b
    rw [List.map_cons, List.foldl_cons, List.foldl_cons]
    have hstep : (if (g b).length < (g k).length then g k else g b) =
        g (if (g b).length < (g k).length then k else b) := by
      split
      · rfl
      · rfl
    rw [hstep, ih]

theorem claimGroup_mem_take (n : Nat) (strs : List PyStr) (k x : PyStr)
    (hx : x ∈ claimGroup n strs k) : x.take n = k := by
  have := (List.mem_filter.mp hx).2
  rw [Bool.and_eq_true, beq_iff_eq] at this
  exact this.2

theorem claimGroup_headD_take (n : Nat) (strs : List PyStr) (k : PyStr)
    (h : claimGroup n strs k ≠ []) :
    ((claimGroup n strs k).headD []).take n = k := by
  have hh : (claimGroup n strs k).headD [] = (claimGroup n strs k).head h := by
    rw [List.headD_eq_head?, List.head?_eq_head h]
    rfl
  rw [hh]
  exact claimGroup_mem_take n strs k _ (List.head_mem h)

theorem consensusScan_cons_eq (n : Nat) (ns : List Nat) (strs : List PyStr) :
    consensusScan (n :: ns) strs =
      (match claimRound n strs with
       | some r => some r
       | none => consensusScan ns strs) := by
  show (let lg := pyMaxByLen ((prefixGroups n strs).map Prod.snd);
    if 1 < lg.length then some ((lg.headD []).take n) else consensusScan ns strs) = _
  rw [prefixGroups_eq, List.map_map]
  have hcomp : (Prod.snd ∘ fun q => (q, claimGroup n strs q)) =
      fun q => claimGroup n strs q := rfl
  rw [hcomp]
  cases hkeys : claimKeys n strs with
  | nil =>
    have hcr : claimRound n strs = none := by
      unfold claimRound
      rw [hkeys]
    rw [hcr]
    rfl
  | cons k0 krest =>
    rw [List.map_cons]
    show (if 1 < (pyMaxByLen
        (claimGroup n strs k0 :: krest.map (fun q => claimGroup n strs q))).length
      then some (((pyMaxByLen (claimGroup n strs k0 ::
        krest.map (fun q => claimGroup n strs q))).headD []).take n)
      else consensusScan ns strs) = _
    have hmax : pyMaxByLen (claimGroup n strs k0 ::
        krest.map (fun q => claimGroup n strs q)) =
        claimGroup n strs (krest.foldl
          (fun bk k => if (claimGroup n strs bk).length < (claimGroup n strs k).length
            then k else bk) k0) := by
      unfold pyMaxByLen
      exact foldl_max_map (fun q => claimGroup n strs q) krest k0
    rw [hmax]
    set kmax := krest.foldl
      (fun bk k => if (claimGroup n strs bk).length < (claimGroup n strs k).length
        then k else bk) k0 with hkmax
    have hcr : claimRound n strs =
        if 2 ≤ (claimGroup n strs kmax).length then some kmax else none := by
      unfold claimRound
      rw [hkeys]
    rw [hcr]
    by_cases h2 : 2 ≤ (claimGroup n strs kmax).length
    · rw [if_pos (by omega), if_pos h2]
      have hne : claimGroup n strs kmax ≠ [] := by
        intro hnil
        rw [hnil] at h2
        simp at h2
      rw [claimGroup_headD_take n strs kmax hne]
    · rw [if_neg (by omega), if_neg h2]

/-- Claim C1: with at least two present identifiers, find_common_vtrac
performs the descending grouping scan over prefix lengths 8, 7, 6 described
by the claim, agreeing with the claim-side formulation consensusClaim; in
particular on the two identifiers AB123456, AB123457 the result is the
shared length-7 prefix AB12345. -/
theorem find_common_vtrac_claim (vs : List (Option PyStr))
    (h : 2 ≤ (vs.filterMap id).length) :
    find_common_vtrac vs = consensusClaim (vs.filterMap id) ∧
    find_common_vtrac [some (pystr "AB123456"), some (pystr "AB123457")] =
      some (pystr "AB12345") := by
  refine ⟨?_, by decide⟩
  unfold find_common_vtrac
  rw [if_neg]
  · rw [if_neg (by omega)]
    have hrange : pyRangeDown 8 (6 - 1) = [8, 7, 6] := by decide
    rw [hrange, consensusScan_cons_eq, consensusScan_cons_eq, consensusScan_cons_eq]
    unfold consensusClaim
    cases claimRound 8 (vs.filterMap id) with
    | some r => rfl
    | none =>
      cases claimRound 7 (vs.filterMap id) with
      | some r => rfl
      | none =>
        cases claimRound 6 (vs.filterMap id) with
        | some r => rfl
        | none => rfl
  · intro hcond
    rw [Bool.or_eq_true] at hcond
    rcases hcond with hc | hc
    · rw [List.isEmpty_iff] at hc
      rw [hc] at h
      simp at h
    · rw [List.all_eq_true] at hc
      have hnil : vs.filterMap id = [] := by
        rw [List.filterMap_eq_nil_iff]
        intro a ha
        have := hc a ha
        cases a with
        | none => rfl
        | some x => simp at this
      rw [hnil] at h
      simp at h

theorem find_common_vtrac_claim_witness :
    find_common_vtrac [some (pystr "AB123456"), some (pystr "AB123457")] =
      consensusClaim ([some (pystr "AB123456"),
        some (pystr "AB123457")].filterMap id) ∧
    find_common_vtrac [some (pystr "AB123456"), some (pystr "AB123457")] =
      some (pystr "AB12345") :=
  find_common_vtrac_claim [some (pystr "AB123456"), some (pystr "AB123457")] (by decide)
